import Mathlib

/-!
Verification of the project/export tool layer of a Blockbench MCP plugin.

The development shallowly embeds the two source modules:

* `src/server/tools/project.ts` — `open_project`, `open_projects_from_folder`
  (with its nested `scanDirectory`), `list_open_projects`, `switch_project`,
  `close_project`;
* the export module — `to_geo_json`, `export_geo_json` (its target-path
  normalization).

File contents are embedded as the outcome of `JSON.parse`: a failed parse
is `none`; a successful parse is a `JsonValue` — the literal JSON `null`,
on which the source's `parsed.meta` read throws a TypeError, or a non-null
value whose sniffed key/truthiness facts are a `Parsed`.  Host-side mutations (`newProject`, `codec.parse`, `select`, `close`)
are recorded as explicit effect values, so "no mutation happened" is the
statement that the produced effect trace is empty.  Node library functions
the code calls (`path.extname`, `path.basename`, `String.prototype.endsWith`,
`String.prototype.replace`, `parseInt`) are modelled by their documented
semantics, since the code's behaviour depends on them.
-/

namespace BBMcp

/-- Characters of the basename of a POSIX-style path: everything after the
last `/` (the whole string when there is no separator).  Models the basename
extraction step inside Node's `path.extname` / `path.basename`. -/
def basenameChars (cs : List Char) : List Char :=
  cs.foldl (fun acc c => if c = '/' then [] else acc ++ [c]) []

/-- Node `path.extname` on a basename: the segment from the last `.` to the
end, except that a name whose only dot is its leading character (a dotfile
such as `.json`) and the special name `..` have no extension. -/
def extnameChars (cs : List Char) : List Char :=
  let b := basenameChars cs
  if b = ['.', '.'] then []
  else
    let rev := b.reverse
    let suff := rev.takeWhile (fun c => c != '.')
    match rev.dropWhile (fun c => c != '.') with
    | [] => []
    | _ :: before => if before = [] then [] else '.' :: suff.reverse

/-- Node `path.extname` (POSIX). -/
def extname (p : String) : String := String.mk (extnameChars p.data)

/-- ASCII lowering, modelling JS `String.prototype.toLowerCase` on the
ASCII-only extension strings involved. -/
def lowerStr (s : String) : String := String.mk (s.data.map Char.toLower)

/-- The expression `pathModule.extname(path).toLowerCase()` used by the
source. -/
def extLower (p : String) : String := lowerStr (extname p)

/-- JS `s.endsWith(suff)`. -/
def jsEndsWith (s suff : String) : Bool := List.isSuffixOf suff.data s.data

/-- Node `path.join(dir, name)` for the simple relative case the scanner
uses (no normalization of `..` segments is needed by any claim). -/
def joinPath (dir name : String) : String := dir ++ "/" ++ name

/-- Node `path.basename`. -/
def basenameOf (p : String) : String := String.mk (basenameChars p.data)

/-- A non-null `JSON.parse` result, restricted to the facts the
format-sniffing rules read (the `null` case, on which those reads throw, is
added by `JsonValue` below).  `metaModelFormat` is `some tag` exactly when
`parsed.meta?.model_format` is truthy; the four `Bool` fields record the
truthiness of `parsed["minecraft:geometry"]`, `parsed.format_version`,
`parsed.elements` and `parsed.textures`. -/
structure Parsed where
  metaModelFormat : Option String
  minecraftGeometry : Bool
  formatVersion : Bool
  elements : Bool
  textures : Bool
deriving DecidableEq, Repr

/-- The host codecs the resolver can select (`Codecs.*`). -/
inductive Codec where
  | project
  | bedrock
  | java_block
  | optifine_entity
deriving DecidableEq, Repr

/-- The host formats the resolver can select (`Formats.*`); `named tag` is
the registry entry `Formats[tag]` reached through a `meta.model_format`
tag. -/
inductive ModelFormat where
  | free
  | bedrock
  | java_block
  | optifine_entity
  | named (id : String)
deriving DecidableEq, Repr

/-- The expression `Formats[tag] ?? Formats.free`: the registry entry when
`tag` is a registered id, else the generic `free` format.
`knownFormats` lists the ids present in the host's `Formats` registry. -/
def formatsLookup (knownFormats : List String) (tag : String) : ModelFormat :=
  if knownFormats.contains tag then ModelFormat.named tag else ModelFormat.free

/-- The expression `Formats[parsed.meta?.model_format] ?? Formats.free`. -/
def taggedOrFree (knownFormats : List String) (tag? : Option String) : ModelFormat :=
  match tag? with
  | some tag => formatsLookup knownFormats tag
  | none => ModelFormat.free

/-- The codec/format resolution step of `open_project`
(`src/server/tools/project.ts` lines 63–111).  `ext` there is
`pathModule.extname(path).toLowerCase()`.  The `.jem`/`.jpm` branch throws
when the host lacks `Codecs.optifine_entity`; `optifineAvail` records that
availability. -/
def resolveOpen (optifineAvail : Bool) (knownFormats : List String)
    (path : String) (parsed : Parsed) : Except String (Codec × ModelFormat) :=
  if extLower path == ".bbmodel" || parsed.metaModelFormat.isSome then
    Except.ok (Codec.project, taggedOrFree knownFormats parsed.metaModelFormat)
  else if extLower path == ".geo.json" || parsed.minecraftGeometry || parsed.formatVersion then
    Except.ok (Codec.bedrock, ModelFormat.bedrock)
  else if extLower path == ".json" && (parsed.elements || parsed.textures) then
    Except.ok (Codec.java_block, ModelFormat.java_block)
  else if extLower path == ".jem" || extLower path == ".jpm" then
    if optifineAvail then Except.ok (Codec.optifine_entity, ModelFormat.optifine_entity)
    else Except.error "OptiFine codec is not available."
  else
    Except.ok (Codec.project, ModelFormat.free)

/-- The codec/format resolution step inside the `open_projects_from_folder`
loop (`src/server/tools/project.ts` lines 200–250).  Unlike `resolveOpen`,
its first two rules test `filePath.endsWith(".bbmodel")` and
`filePath.endsWith(".geo.json")` on the full path; the later rules still use
the lowercased `extname`. -/
def resolveFolder (optifineAvail : Bool) (knownFormats : List String)
    (path : String) (parsed : Parsed) : Except String (Codec × ModelFormat) :=
  if jsEndsWith path ".bbmodel" || parsed.metaModelFormat.isSome then
    Except.ok (Codec.project, taggedOrFree knownFormats parsed.metaModelFormat)
  else if jsEndsWith path ".geo.json" || parsed.minecraftGeometry || parsed.formatVersion then
    Except.ok (Codec.bedrock, ModelFormat.bedrock)
  else if extLower path == ".json" && (parsed.elements || parsed.textures) then
    Except.ok (Codec.java_block, ModelFormat.java_block)
  else if extLower path == ".jem" || extLower path == ".jpm" then
    if optifineAvail then Except.ok (Codec.optifine_entity, ModelFormat.optifine_entity)
    else Except.error ("OptiFine codec not available for: " ++ path)
  else
    Except.ok (Codec.project, ModelFormat.free)

/-- Result of a successful `JSON.parse`: the literal `null`, or a non-null
value with its sniffed fields.  The optional chaining in the source
(`parsed.meta?.model_format`) guards only the `meta` level: when `parsed`
is `null`, the read of `parsed.meta` itself throws a TypeError.  Non-null
primitives (numbers, strings, booleans) do not throw — their `meta` is
`undefined` — so they are `obj` values with every field falsy. -/
inductive JsonValue where
  | null
  | obj (p : Parsed)
deriving DecidableEq, Repr

/-- The resolution step of `open_project` applied to the raw `JSON.parse`
result: on JSON `null` the first sniffing condition's `parsed.meta` read
throws a TypeError (V8 wording; the `.bbmodel` short-circuit does not help,
since line 82 reads `parsed.meta` again), and `open_project` does not catch
it; on a non-null value it is `resolveOpen`. -/
def resolveOpenJson (optifineAvail : Bool) (knownFormats : List String)
    (path : String) : JsonValue → Except String (Codec × ModelFormat)
  | JsonValue.null =>
      Except.error "TypeError: Cannot read properties of null (reading 'meta')"
  | JsonValue.obj p => resolveOpen optifineAvail knownFormats path p

/-- The resolution step of the `open_projects_from_folder` loop applied to
the raw `JSON.parse` result: on JSON `null` the `parsed.meta` read throws a
TypeError, which the loop's outer `catch` records as
`Error opening <path>: <message>` instead of selecting any binding; on a
non-null value it is `resolveFolder`. -/
def resolveFolderJson (optifineAvail : Bool) (knownFormats : List String)
    (path : String) : JsonValue → Except String (Codec × ModelFormat)
  | JsonValue.null =>
      Except.error ("Error opening " ++ path
        ++ ": Cannot read properties of null (reading 'meta')")
  | JsonValue.obj p => resolveFolder optifineAvail knownFormats path p

/-- A directory entry as seen by `fs.readdirSync(dir, { withFileTypes: true })`.
Entries that are neither files nor directories (sockets, symlinks the host
does not follow) are skipped by the scanner's `else if entry.isFile()` and
are not modelled. -/
inductive Entry where
  | file (name : String)
  | dir (name : String) (entries : List Entry)

/-- The per-file filter of `scanDirectory` (`project.ts` lines 178–184):
`.geo.json` is matched against the full `entry.name`, everything else by the
lowercased `extname` being in the allowed-extension list. -/
def matchesFile (allowed : List String) (name : String) : Bool :=
  (jsEndsWith name ".geo.json" && allowed.contains ".geo.json")
    || allowed.contains (extLower name)

/-- The nested `scanDirectory` of `open_projects_from_folder`
(`project.ts` lines 169–189): entries in listing order; a directory is
entered only when `recursive` is true; a file contributes its joined path
when `matchesFile` accepts its name. -/
def scanList (recursive : Bool) (allowed : List String) :
    String → List Entry → List String
  | _, [] => []
  | dir, Entry.file n :: es =>
      (if matchesFile allowed n then [joinPath dir n] else [])
        ++ scanList recursive allowed dir es
  | dir, Entry.dir n subs :: es =>
      (if recursive then scanList recursive allowed (joinPath dir n) subs else [])
        ++ scanList recursive allowed dir es
termination_by _ es => sizeOf es
decreasing_by all_goals (simp <;> omega)

/-- Modelled from the spec ("Scanner with recursive=false must not descend
into subdirectories"): the matching files directly in the root listing, in
order, with no descent whatsoever. -/
def topLevelMatches (allowed : List String) : String → List Entry → List String
  | _, [] => []
  | dir, Entry.file n :: es =>
      (if matchesFile allowed n then [joinPath dir n] else [])
        ++ topLevelMatches allowed dir es
  | dir, Entry.dir _ _ :: es => topLevelMatches allowed dir es

/-- Modelled from the spec ("with recursive=true it must visit arbitrarily
nested matching files"): every matching file at every nesting depth. -/
def deepMatches (allowed : List String) : String → List Entry → List String
  | _, [] => []
  | dir, Entry.file n :: es =>
      (if matchesFile allowed n then [joinPath dir n] else [])
        ++ deepMatches allowed dir es
  | dir, Entry.dir n subs :: es =>
      deepMatches allowed (joinPath dir n) subs ++ deepMatches allowed dir es
termination_by _ es => sizeOf es
decreasing_by all_goals (simp <;> omega)

/-- The default `PROJECT_EXTENSIONS` list (`project.ts` line 8). -/
def PROJECT_EXTENSIONS : List String :=
  [".bbmodel", ".json", ".geo.json", ".mcmodel", ".jem", ".jpm"]

/-- JS `s.replace(pat, rep)` with a string pattern: replaces the first
occurrence only (the replacement string used here contains no `$` pattern). -/
def replaceFirstChars : List Char → List Char → List Char → List Char
  | [], _, _ => []
  | c :: cs, pat, rep =>
      if pat.isPrefixOf (c :: cs) then rep ++ (c :: cs).drop pat.length
      else c :: replaceFirstChars cs pat rep

/-- JS `s.replace(pat, rep)` on strings. -/
def jsReplaceFirst (s pat rep : String) : String :=
  String.mk (replaceFirstChars s.data pat.data rep.data)

/-- The target-path normalization of `export_geo_json` (export module,
"Ensure path ends with .geo.json"):
`path.endsWith(".geo.json") ? path : path.endsWith(".json") ?
path.replace(".json", ".geo.json") : path + ".geo.json"`. -/
def normalizeGeoPath (path : String) : String :=
  if jsEndsWith path ".geo.json" then path
  else if jsEndsWith path ".json" then jsReplaceFirst path ".json" ".geo.json"
  else path ++ ".geo.json"

/-- An open host project as the tools see it: its `uuid`, its `name`
(JS `proj.name || "Untitled"` treats the empty string as unnamed) and
`proj.format?.id`. -/
structure Project where
  uuid : String
  name : String
  formatId : Option String
deriving DecidableEq, Repr

/-- Whitespace skipped by JS `parseInt` (the ASCII part relevant here). -/
def isJsSpace (c : Char) : Bool :=
  c == ' ' || c == '\t' || c == '\n' || c == '\r' || c == '\x0b' || c == '\x0c'

/-- Decimal-digit test on a character, as `parseInt(s, 10)` uses. -/
def isDigitCh (c : Char) : Bool := 48 ≤ c.toNat && c.toNat ≤ 57

/-- Numeric value of a decimal digit character. -/
def digitVal (c : Char) : Nat := c.toNat - 48

/-- Value of a list of decimal digit characters, most significant first. -/
def digitsVal (ds : List Char) : Nat :=
  ds.foldl (fun a c => 10 * a + digitVal c) 0

/-- Value of the longest leading run of decimal digits; `none` when there is
no leading digit (`parseInt` returns `NaN` then). -/
def parseDigitsVal (cs : List Char) : Option Nat :=
  let ds := cs.takeWhile isDigitCh
  if ds.isEmpty then none else some (digitsVal ds)

/-- JS `parseInt(s, 10)`: skip leading whitespace, an optional sign, then the
longest run of decimal digits; `none` models `NaN`. -/
def jsParseInt (s : String) : Option Int :=
  match s.data.dropWhile isJsSpace with
  | [] => none
  | c :: rest =>
      if c == '-' then (parseDigitsVal rest).map (fun v => -(v : Int))
      else if c == '+' then (parseDigitsVal rest).map (fun v => (v : Int))
      else (parseDigitsVal (c :: rest)).map (fun v => (v : Int))

/-- The target-resolution step of `switch_project` (`project.ts` lines
330–336): try `parseInt(identifier, 10)` as a 1-based index first; on a
non-numeral or out-of-range result, fall back to an exact UUID search. -/
def switchTarget (ps : List Project) (id : String) : Option Project :=
  match jsParseInt id with
  | some k =>
      if 1 ≤ k && k ≤ (ps.length : Int) then ps.get? (k.toNat - 1)
      else ps.find? (fun p => p.uuid == id)
  | none => ps.find? (fun p => p.uuid == id)

/-- A mutation of host project state performed by a tool handler. -/
inductive ProjEffect where
  | select (uuid : String)
  | close (uuid : String) (force : Bool)
deriving DecidableEq, Repr

/-- JS `proj.name || "Untitled"`. -/
def displayName (p : Project) : String := if p.name == "" then "Untitled" else p.name

/-- The `switch_project` handler (`project.ts` lines 319–348): empty project
list and unresolved identifiers are errors produced before any mutation; on
success the single mutation is `targetProject.select()`. -/
def switchExec (ps : List Project) (id : String) :
    List ProjEffect × Except String String :=
  if ps.isEmpty then ([], Except.error "No projects are currently open.")
  else
    match switchTarget ps id with
    | none =>
        ([], Except.error ("Project not found: " ++ id
          ++ ". Use 'list_open_projects' to see available projects."))
    | some t =>
        ([ProjEffect.select t.uuid],
          Except.ok ("Switched to project: " ++ displayName t
            ++ " (UUID: " ++ t.uuid ++ ")"))

/-- JS truthiness of the optional `uuid` string parameter of
`close_project`: `undefined` and the empty string are both falsy in the
source's `if (uuid)`. -/
def jsTruthy (s : Option String) : Bool :=
  match s with
  | none => false
  | some u => !(u == "")

/-- The success path of `close_project` once a target is found: the single
mutation `targetProject.close(force)` and the report line. -/
def closeFound (t : Project) (force : Bool) :
    List ProjEffect × Except String String :=
  ([ProjEffect.close t.uuid force],
    Except.ok ("Closed project: " ++ displayName t
      ++ " (UUID: " ++ t.uuid ++ ")"))

/-- The `close_project` handler (`project.ts` lines 371–400).  The source's
`if (uuid)` is a truthiness test, so an empty-string `uuid` behaves exactly
like an absent one and the active project becomes the target.  A truthy
`uuid` is resolved only by exact UUID search (there is no index branch);
all failures happen before the single mutation
`targetProject.close(force)`. -/
def closeExec (ps : List Project) (active : Option Project)
    (uuid : Option String) (force : Bool) :
    List ProjEffect × Except String String :=
  if ps.isEmpty then ([], Except.error "No projects are currently open.")
  else if jsTruthy uuid then
    match ps.find? (fun p => p.uuid == uuid.getD "") with
    | none => ([], Except.error ("Project not found: " ++ uuid.getD ""))
    | some t => closeFound t force
  else
    match active with
    | none => ([], Except.error "No active project to close.")
    | some t => closeFound t force

/-- One line of the `list_open_projects` output (`project.ts` lines
296–299), for the project at 0-based position `idx`; the arrow marks the
active project (identity with the global `Project`, embedded as UUID
equality). -/
def renderProjectLine (idx : Nat) (activeUuid : Option String) (p : Project) : String :=
  toString (idx + 1) ++ ". " ++ (if activeUuid == some p.uuid then "→ " else "  ")
    ++ displayName p
    ++ " (UUID: " ++ p.uuid ++ ", Format: " ++ p.formatId.getD "unknown" ++ ")"

/-- The indexed `projects.map((proj, index) => ...)` of `list_open_projects`,
started at index `i`. -/
def listLinesFrom (i : Nat) (activeUuid : Option String) : List Project → List String
  | [] => []
  | p :: ps => renderProjectLine i activeUuid p :: listLinesFrom (i + 1) activeUuid ps

/-- The numbered body of the `list_open_projects` report. -/
def listLines (activeUuid : Option String) (ps : List Project) : List String :=
  listLinesFrom 0 activeUuid ps

/-- Decimal digit emitter with explicit fuel; structural recursion, so
concrete numerals evaluate inside `decide`/`rfl`.  `decimalReprAux (n+1) n []`
is the numeral of `n`. -/
def decimalReprAux : Nat → Nat → List Char → List Char
  | 0, _, acc => acc
  | fuel + 1, n, acc =>
      if n < 10 then Nat.digitChar n :: acc
      else decimalReprAux fuel (n / 10) (Nat.digitChar (n % 10) :: acc)

/-- The decimal numeral of `n`. -/
def decimalRepr (n : Nat) : String := String.mk (decimalReprAux (n + 1) n [])

/-- Decimal digit characters of `n`, most significant first; proof-oriented
recursion used to reason about `decimalRepr`. -/
def decimalDigits (n : Nat) : List Char :=
  if _h : n < 10 then [Nat.digitChar n]
  else decimalDigits (n / 10) ++ [Nat.digitChar (n % 10)]
decreasing_by exact Nat.div_lt_self (by omega) (by omega)

/-- A host mutation performed by `open_project` / the batch opener. -/
inductive HostEffect where
  | newProject (f : ModelFormat)
  | codecParse (c : Codec) (path : String)
deriving DecidableEq, Repr

/-- The `open_project` handler (`project.ts` lines 53–121).  `fsExists`
embeds `fs.existsSync(path)`; `parseResult` embeds the outcome of
`JSON.parse` on the file's content (`none` = the parse threw).  The returned
effect trace lists the host mutations in order: on every failure path it is
empty, on success it is `newProject(format)` followed by
`codec.parse(parsed, path)`. -/
def openProject (fsExists : Bool) (parseResult : Option Parsed)
    (optifineAvail : Bool) (knownFormats : List String) (path : String) :
    List HostEffect × Except String String :=
  if !fsExists then ([], Except.error ("File not found: " ++ path))
  else
    match parseResult with
    | none => ([], Except.error ("Failed to parse file as JSON: " ++ path))
    | some parsed =>
        match resolveOpen optifineAvail knownFormats path parsed with
        | Except.error e => ([], Except.error e)
        | Except.ok (c, f) =>
            ([HostEffect.newProject f, HostEffect.codecParse c path],
              Except.ok ("Opened project: " ++ path))

/-- One discovered file as the batch-opener loop sees it: its path, the
outcome of `fs.readFileSync` (`readErr = some m` embeds a thrown read error
with message `m`, caught by the loop's outer `try`), the outcome of
`JSON.parse`, and whether `newProject`/`codec.parse` threw (`openErr`). -/
structure FileEntry where
  path : String
  readErr : Option String
  parseResult : Option Parsed
  openErr : Option String
deriving DecidableEq, Repr

/-- Outcome of one iteration of the `open_projects_from_folder` loop
(`project.ts` lines 198–263): `ok basename` when the file was opened and its
basename pushed to `results`, `error msg` with the exact message pushed to
`errors` otherwise. -/
def fileOutcome (optifineAvail : Bool) (knownFormats : List String)
    (f : FileEntry) : Except String String :=
  match f.readErr with
  | some m => Except.error ("Error opening " ++ f.path ++ ": " ++ m)
  | none =>
      match f.parseResult with
      | none => Except.error ("Failed to parse: " ++ f.path)
      | some parsed =>
          match resolveFolder optifineAvail knownFormats f.path parsed with
          | Except.error e => Except.error e
          | Except.ok _ =>
              match f.openErr with
              | some m => Except.error ("Error opening " ++ f.path ++ ": " ++ m)
              | none => Except.ok (basenameOf f.path)

/-- The batch-opener loop with its two accumulator arrays `results` and
`errors`, mirroring the `for (const filePath of projectFiles)` loop: each
file appends to exactly one of the two, and the loop always continues with
the remaining files. -/
def processFiles (optifineAvail : Bool) (knownFormats : List String) :
    List FileEntry → List String → List String → List String × List String
  | [], results, errors => (results, errors)
  | f :: rest, results, errors =>
      match fileOutcome optifineAvail knownFormats f with
      | Except.ok name => processFiles optifineAvail knownFormats rest (results ++ [name]) errors
      | Except.error e => processFiles optifineAvail knownFormats rest results (errors ++ [e])

/-- The successful basenames of a file list, in order. -/
def successList (optifineAvail : Bool) (knownFormats : List String)
    (files : List FileEntry) : List String :=
  files.filterMap (fun f =>
    match fileOutcome optifineAvail knownFormats f with
    | Except.ok n => some n
    | Except.error _ => none)

/-- The failure messages of a file list, in order. -/
def failureList (optifineAvail : Bool) (knownFormats : List String)
    (files : List FileEntry) : List String :=
  files.filterMap (fun f =>
    match fileOutcome optifineAvail knownFormats f with
    | Except.ok _ => none
    | Except.error e => some e)

/-- The final report of `open_projects_from_folder` (`project.ts` lines
265–271): the success count, the opened file names, and — when any — the
error count with the failure messages. -/
def buildReport (folder : String) (results errors : List String) : String :=
  "Opened " ++ toString results.length ++ " project(s) from: " ++ folder ++ "\n"
    ++ (if results.length > 0 then
          "\nOpened files:\n" ++ String.intercalate "\n" (results.map (fun f => "  - " ++ f))
        else "")
    ++ (if errors.length > 0 then
          "\n\nErrors (" ++ toString errors.length ++ "):\n"
            ++ String.intercalate "\n" (errors.map (fun e => "  - " ++ e))
        else "")

example : extname "model.geo.json" = ".json" := by decide
example : extname "a.json" = ".json" := by decide
example : extname ".json" = "" := by decide
example : extname "dir/.json" = "" := by decide
example : extname "dir/a.jem" = ".jem" := by decide
example : extname "a." = "." := by decide
example : extname "noext" = "" := by decide
example : extLower "A.JSON" = ".json" := by decide
example : jsEndsWith "model.geo.json" ".geo.json" = true := by decide
example : jsEndsWith "model.geo.json" ".bbmodel" = false := by decide

/-! ## Claim C9: JSON parsing precedes any project mutation in `open_project` -/

/-- C9.  For every existing file path given to `open_project`, a `JSON.parse`
failure (embedded as `parseResult = none`, for any extension) makes the
handler fail with the parse error, with an empty host-effect trace: neither
`newProject` nor `codec.parse` is invoked, so the open-project set and the
active project are unchanged. -/
theorem open_project_parse_before_create (optifineAvail : Bool)
    (knownFormats : List String) (path : String) :
    openProject true none optifineAvail knownFormats path
      = ([], Except.error ("Failed to parse file as JSON: " ++ path)) := rfl

/-! ## Claim C3: `export_geo_json` target-path normalization -/

/-- C3.  The spec's three examples normalize as claimed, but the claim's
universal part fails: `path.replace(".json", ".geo.json")` replaces the
FIRST occurrence of `".json"`, so the input `"a.json.json"` is written to
`"a.geo.json.json"`, which does not end in `".geo.json"` — contradicting the
source's own comment "Ensure path ends with .geo.json". -/
theorem export_geo_json_replace_first_bug :
    normalizeGeoPath "out/model" = "out/model.geo.json"
    ∧ normalizeGeoPath "out/model.json" = "out/model.geo.json"
    ∧ normalizeGeoPath "out/model.geo.json" = "out/model.geo.json"
    ∧ normalizeGeoPath "a.json.json" = "a.geo.json.json"
    ∧ jsEndsWith (normalizeGeoPath "a.json.json") ".geo.json" = false :=
  ⟨by decide, by decide, by decide, by decide, by decide⟩

/-! ## Claim C2: totality of the `open_project` resolver -/

/-- C2 counterexample.  The resolver is not total, in two independent ways:
when the host lacks `Codecs.optifine_entity`, a `.jem` path does not fall
through to the generic-project binding but fails with an error; and even
with the OptiFine codec available, a file whose content parses to JSON
`null` makes the sniffing condition's `parsed.meta` read throw a TypeError
instead of returning any binding. -/
theorem resolver_not_total_cex :
    resolveOpen false [] "model.jem" ⟨none, false, false, false, false⟩
      = Except.error "OptiFine codec is not available."
    ∧ (∀ b, resolveOpen false [] "model.jem" ⟨none, false, false, false, false⟩
        ≠ Except.ok b)
    ∧ resolveOpenJson true [] "model.json" JsonValue.null
      = Except.error "TypeError: Cannot read properties of null (reading 'meta')"
    ∧ (∀ b, resolveOpenJson true [] "model.json" JsonValue.null ≠ Except.ok b) :=
  ⟨rfl, fun _ h => Except.noConfusion h, rfl, fun _ h => Except.noConfusion h⟩

/-- C2 amended.  With the OptiFine codec available, the resolver of
`open_project` returns a binding for every (path, non-null parsed content)
pair, unresolvable inputs falling through to the generic-project binding;
a content parsing to JSON `null` instead throws a TypeError at the
`parsed.meta` read, with or without the OptiFine codec.  Determinism holds
throughout: the resolver is a pure function of (codec availability,
registered format ids, path, content). -/
theorem resolver_total_with_optifine (knownFormats : List String)
    (path : String) (parsed : Parsed) :
    (∃ b, resolveOpenJson true knownFormats path (JsonValue.obj parsed)
        = Except.ok b)
    ∧ ∀ optifineAvail : Bool,
        resolveOpenJson optifineAvail knownFormats path JsonValue.null
          = Except.error "TypeError: Cannot read properties of null (reading 'meta')" := by
  constructor
  · show ∃ b, resolveOpen true knownFormats path parsed = Except.ok b
    unfold resolveOpen
    repeat' split
    all_goals (try exact ⟨_, rfl⟩)
    all_goals exact absurd rfl ‹¬true = true›
  · intro optifineAvail
    rfl

/-! ## Claim C6: `.json` content with an `elements` key resolves to java_block -/

/-- C6 counterexample.  A file literally named `".json"` (a dotfile) is a
path ending in `".json"` whose content can have an `elements` key and match
no earlier sniffing rule, yet Node's `extname` gives it the empty extension,
so the resolver falls through to the generic-project binding instead of the
Java block/item binding. -/
theorem dotfile_json_resolver_cex :
    jsEndsWith ".json" ".json" = true
    ∧ extLower ".json" = ""
    ∧ resolveOpen true [] ".json" ⟨none, false, false, true, false⟩
        = Except.ok (Codec.project, ModelFormat.free)
    ∧ resolveOpen true [] ".json" ⟨none, false, false, true, false⟩
        ≠ Except.ok (Codec.java_block, ModelFormat.java_block) :=
  ⟨rfl, rfl, rfl, fun h => Codec.noConfusion (congrArg Prod.fst (Except.ok.inj h))⟩

/-- C6 amended.  For every path whose extracted lowercased extension is
`".json"` (every path ending in `".json"` with a nonempty stem, the dotfile
`".json"` itself excluded) and whose parsed content has a truthy `elements`
key while matching no earlier sniffing rule, the resolver chooses the Java
block/item-model binding rather than the generic-project fallback. -/
theorem json_elements_java_block (optifineAvail : Bool)
    (knownFormats : List String) (path : String) (parsed : Parsed)
    (hext : extLower path = ".json")
    (hmeta : parsed.metaModelFormat = none)
    (hgeo : parsed.minecraftGeometry = false)
    (hver : parsed.formatVersion = false)
    (helem : parsed.elements = true) :
    resolveOpen optifineAvail knownFormats path parsed
      = Except.ok (Codec.java_block, ModelFormat.java_block) := by
  unfold resolveOpen
  rw [hext]
  simp +decide [hmeta, hgeo, hver, helem]

/-- C6 witness: the amended theorem applied at `"model.json"` with an
`elements`-bearing content. -/
theorem json_elements_java_block_witness :
    extLower "model.json" = ".json"
    ∧ resolveOpen true [] "model.json" ⟨none, false, false, true, false⟩
        = Except.ok (Codec.java_block, ModelFormat.java_block) :=
  ⟨rfl, json_elements_java_block true [] "model.json"
    ⟨none, false, false, true, false⟩ rfl rfl rfl rfl rfl⟩

/-! ## Claim C5: batch opener never aborts and reports both lists with counts -/

/-- The `open_projects_from_folder` output for a nonempty discovered-file
list: run the loop from empty accumulators, then format the report. -/
def folderOutput (optifineAvail : Bool) (knownFormats : List String)
    (folder : String) (files : List FileEntry) : String :=
  let rs := processFiles optifineAvail knownFormats files [] []
  buildReport folder rs.1 rs.2

/-- A three-file batch in which the middle file has invalid JSON, matching
the spec's partial-failure example. -/
def demoBatch : List FileEntry :=
  [⟨"d/a.bbmodel", none, some ⟨some "free", false, false, false, false⟩, none⟩,
   ⟨"d/bad.json", none, none, none⟩,
   ⟨"d/c.geo.json", none, some ⟨none, true, true, false, false⟩, none⟩]

theorem processFiles_eq (optifineAvail : Bool) (knownFormats : List String) :
    ∀ (files : List FileEntry) (results errors : List String),
      processFiles optifineAvail knownFormats files results errors
        = (results ++ successList optifineAvail knownFormats files,
           errors ++ failureList optifineAvail knownFormats files) := by
  intro files
  induction files with
  | nil => intro rs es; simp [processFiles, successList, failureList]
  | cons f rest ih =>
      intro rs es
      simp only [processFiles, successList, failureList, List.filterMap_cons]
      cases h : fileOutcome optifineAvail knownFormats f with
      | ok n =>
          dsimp only
          rw [ih (rs ++ [n]) es]
          simp [successList, failureList]
      | error e =>
          dsimp only
          rw [ih rs (es ++ [e])]
          simp [successList, failureList]

theorem success_failure_length (optifineAvail : Bool) (knownFormats : List String) :
    ∀ files : List FileEntry,
      (successList optifineAvail knownFormats files).length
        + (failureList optifineAvail knownFormats files).length = files.length := by
  intro files
  induction files with
  | nil => rfl
  | cons f rest ih =>
      simp only [successList, failureList, List.filterMap_cons] at *
      cases h : fileOutcome optifineAvail knownFormats f <;> simp [h] <;> omega

/-- C5.  The batch-opener loop classifies every discovered file into exactly
one of the success and failure lists (so an early failure never aborts the
remaining files), the two list lengths always sum to the number of files,
the final report is built from exactly those two lists (whose lengths are
the counts it prints), and on the spec's example — three matching files of
which one has invalid JSON — the loop yields two successes and one
failure. -/
theorem batch_opener_error_isolation (optifineAvail : Bool)
    (knownFormats : List String) (folder : String) (files : List FileEntry) :
    processFiles optifineAvail knownFormats files [] []
      = (successList optifineAvail knownFormats files,
         failureList optifineAvail knownFormats files)
    ∧ (successList optifineAvail knownFormats files).length
        + (failureList optifineAvail knownFormats files).length = files.length
    ∧ folderOutput optifineAvail knownFormats folder files
      = buildReport folder (successList optifineAvail knownFormats files)
          (failureList optifineAvail knownFormats files)
    ∧ processFiles true [] demoBatch [] []
      = (["a.bbmodel", "c.geo.json"], ["Failed to parse: d/bad.json"]) := by
  refine ⟨?_, success_failure_length _ _ files, ?_, by decide⟩
  · simpa using processFiles_eq optifineAvail knownFormats files [] []
  · unfold folderOutput
    rw [processFiles_eq optifineAvail knownFormats files [] []]
    simp

/-! ## Claim C1: `.geo.json` suffix detection in `open_project` -/

theorem ends_geo_not_bbmodel (s : String) (h : jsEndsWith s ".geo.json" = true) :
    jsEndsWith s ".bbmodel" = false := by
  simp only [jsEndsWith, List.isSuffixOf_iff_suffix] at h
  simp only [jsEndsWith]
  rw [Bool.eq_false_iff]
  intro hb
  rw [List.isSuffixOf_iff_suffix] at hb
  obtain ⟨t, ht⟩ := h
  obtain ⟨u, hu⟩ := hb
  have hlast := congrArg List.getLast? (ht.trans hu.symm)
  rw [List.getLast?_append, List.getLast?_append,
    show (".geo.json".data).getLast? = some 'n' from rfl,
    show (".bbmodel".data).getLast? = some 'l' from rfl] at hlast
  simp at hlast

/-- C1 counterexample.  In `open_project`, the extension is extracted with
`extname` (last dot-segment), which yields `".json"` for
`"model.geo.json"`, so the `ext === ".geo.json"` test never fires: with a
content that has an `elements` key and no Bedrock marker, the resolver picks
the Java block/item binding, not the Bedrock geometry binding — the path IS
treated as a plain `".json"` file. -/
theorem open_project_geo_suffix_cex :
    jsEndsWith "model.geo.json" ".geo.json" = true
    ∧ extLower "model.geo.json" = ".json"
    ∧ resolveOpen true [] "model.geo.json" ⟨none, false, false, true, false⟩
        = Except.ok (Codec.java_block, ModelFormat.java_block)
    ∧ resolveOpen true [] "model.geo.json" ⟨none, false, false, true, false⟩
        ≠ Except.ok (Codec.bedrock, ModelFormat.bedrock) :=
  ⟨rfl, rfl, rfl, fun h => Codec.noConfusion (congrArg Prod.fst (Except.ok.inj h))⟩

/-- C1 amended.  The full-filename geometry-suffix rule lives in
`open_projects_from_folder`, not `open_project`: for every path ending in
`".geo.json"` whose parsed content is non-null and carries no
`meta.model_format` tag, the batch opener's resolver selects the Bedrock
geometry binding regardless of the rest of the content; a content parsing
to JSON `null` instead throws at the `parsed.meta` read and the loop
records an error, selecting no binding.  (`open_project` itself reaches the
Bedrock binding for such paths only through the content markers
`minecraft:geometry` / `format_version`, as the counterexample shows.) -/
theorem folder_resolver_geo_suffix (optifineAvail : Bool)
    (knownFormats : List String) (path : String) (parsed : Parsed)
    (hgeo : jsEndsWith path ".geo.json" = true)
    (hmeta : parsed.metaModelFormat = none) :
    resolveFolderJson optifineAvail knownFormats path (JsonValue.obj parsed)
      = Except.ok (Codec.bedrock, ModelFormat.bedrock)
    ∧ resolveFolderJson optifineAvail knownFormats path JsonValue.null
      = Except.error ("Error opening " ++ path
          ++ ": Cannot read properties of null (reading 'meta')") := by
  constructor
  · show resolveFolder optifineAvail knownFormats path parsed
      = Except.ok (Codec.bedrock, ModelFormat.bedrock)
    have hbb := ends_geo_not_bbmodel path hgeo
    unfold resolveFolder
    rw [hbb, hgeo, hmeta]
    simp
  · rfl

/-- C1 witness: the amended theorem applied at `"model.geo.json"` with a
non-null content that has no Bedrock marker at all. -/
theorem folder_resolver_geo_suffix_witness :
    jsEndsWith "model.geo.json" ".geo.json" = true
    ∧ (resolveFolderJson true [] "model.geo.json"
          (JsonValue.obj ⟨none, false, false, true, false⟩)
        = Except.ok (Codec.bedrock, ModelFormat.bedrock)
      ∧ resolveFolderJson true [] "model.geo.json" JsonValue.null
        = Except.error ("Error opening " ++ "model.geo.json"
            ++ ": Cannot read properties of null (reading 'meta')")) :=
  ⟨rfl, folder_resolver_geo_suffix true [] "model.geo.json"
    ⟨none, false, false, true, false⟩ rfl rfl⟩

/-! ## Claim C7: the scanner matches `.geo.json` against the full filename -/

/-- C7.  For every file whose name ends in `".geo.json"`, whenever
`".geo.json"` is in the allowed-extension list the scanner includes the
file's joined path in the discovered list, wherever the file occurs in the
listing. -/
theorem scanner_geo_json_full_name (recursive : Bool) (allowed : List String)
    (dir name : String) (es : List Entry)
    (hends : jsEndsWith name ".geo.json" = true)
    (hmem : allowed.contains ".geo.json" = true) :
    scanList recursive allowed dir (Entry.file name :: es)
      = joinPath dir name :: scanList recursive allowed dir es := by
  have hm : matchesFile allowed name = true := by
    unfold matchesFile
    rw [hends, hmem]
    rfl
  simp only [scanList]
  rw [if_pos hm]
  simp

/-- C7 witness: a `model.geo.json` file in the scan root under the default
extension list. -/
theorem scanner_geo_json_full_name_witness :
    jsEndsWith "model.geo.json" ".geo.json" = true
    ∧ PROJECT_EXTENSIONS.contains ".geo.json" = true
    ∧ scanList false PROJECT_EXTENSIONS "root" [Entry.file "model.geo.json"]
        = joinPath "root" "model.geo.json"
            :: scanList false PROJECT_EXTENSIONS "root" [] :=
  ⟨rfl, rfl, scanner_geo_json_full_name false PROJECT_EXTENSIONS "root"
    "model.geo.json" [] rfl rfl⟩

/-! ## Claim C8: the `recursive` flag governs descent -/

theorem scanList_false_eq (allowed : List String) (dir : String) (es : List Entry) :
    scanList false allowed dir es = topLevelMatches allowed dir es := by
  induction es with
  | nil => simp [scanList, topLevelMatches]
  | cons e es ih =>
      cases e with
      | file n => simp only [scanList, topLevelMatches, ih]
      | dir n subs => simp only [scanList, topLevelMatches, ih]; simp

theorem scanList_true_eq (allowed : List String) :
    ∀ (dir : String) (es : List Entry),
      scanList true allowed dir es = deepMatches allowed dir es
  | _, [] => by simp [scanList, deepMatches]
  | dir, Entry.file n :: es => by
      simp only [scanList, deepMatches]
      rw [scanList_true_eq allowed dir es]
  | dir, Entry.dir n subs :: es => by
      simp only [scanList, deepMatches]
      rw [scanList_true_eq allowed (joinPath dir n) subs,
        scanList_true_eq allowed dir es]
      simp
termination_by _ es => sizeOf es
decreasing_by all_goals (simp <;> omega)

/-- C8.  For every directory tree: with `recursive = false` the scan is
exactly the matching files directly in the root listing (no descent into any
subdirectory), and with `recursive = true` it is exactly the matching files
at every nesting depth. -/
theorem scanner_recursive_flag (allowed : List String) (dir : String)
    (es : List Entry) :
    scanList false allowed dir es = topLevelMatches allowed dir es
    ∧ scanList true allowed dir es = deepMatches allowed dir es :=
  ⟨scanList_false_eq allowed dir es, scanList_true_eq allowed dir es⟩

/-! ## Decimal numerals and `parseInt`: supporting lemmas -/

theorem digitVal_digitChar {d : Nat} (h : d < 10) :
    digitVal (Nat.digitChar d) = d := by
  interval_cases d <;> rfl

theorem isDigitCh_digitChar {d : Nat} (h : d < 10) :
    isDigitCh (Nat.digitChar d) = true := by
  interval_cases d <;> rfl

theorem decimalDigits_ne_nil (n : Nat) : decimalDigits n ≠ [] := by
  rw [decimalDigits]
  split <;> simp

theorem decimalDigits_digits (n : Nat) :
    ∀ c ∈ decimalDigits n, isDigitCh c = true := by
  induction n using Nat.strong_induction_on with
  | _ n ih =>
      rw [decimalDigits]
      split
      · intro c hc
        rw [List.mem_singleton] at hc
        subst hc
        exact isDigitCh_digitChar (by omega)
      · intro c hc
        rw [List.mem_append] at hc
        rcases hc with hc | hc
        · exact ih (n / 10) (Nat.div_lt_self (by omega) (by omega)) c hc
        · rw [List.mem_singleton] at hc
          subst hc
          exact isDigitCh_digitChar (Nat.mod_lt _ (by omega))

theorem digitsVal_decimalDigits (n : Nat) :
    digitsVal (decimalDigits n) = n := by
  induction n using Nat.strong_induction_on with
  | _ n ih =>
      rw [decimalDigits]
      split
      · simp [digitsVal, digitVal_digitChar ‹n < 10›]
      · rw [digitsVal, List.foldl_append]
        have hrec := ih (n / 10) (Nat.div_lt_self (by omega) (by omega))
        rw [digitsVal] at hrec
        rw [hrec]
        simp [digitVal_digitChar (Nat.mod_lt n (by omega))]
        omega

theorem decimalReprAux_eq :
    ∀ (fuel n : Nat) (acc : List Char), n < fuel →
      decimalReprAux fuel n acc = decimalDigits n ++ acc := by
  intro fuel
  induction fuel with
  | zero => intro n acc h; omega
  | succ f ih =>
      intro n acc h
      rw [decimalReprAux]
      by_cases h10 : n < 10
      · rw [if_pos h10, decimalDigits, dif_pos h10]
        rfl
      · rw [if_neg h10,
          ih (n / 10) _ (by
            have := Nat.div_lt_self (show 0 < n by omega) (show 1 < 10 by omega)
            omega)]
        conv_rhs => rw [decimalDigits, dif_neg h10]
        simp

theorem digit_not_space {c : Char} (h : isDigitCh c = true) :
    isJsSpace c = false := by
  rw [isDigitCh, Bool.and_eq_true, decide_eq_true_eq, decide_eq_true_eq] at h
  rw [isJsSpace, Bool.eq_false_iff]
  intro hsp
  simp only [Bool.or_eq_true, beq_iff_eq] at hsp
  rcases hsp with ((((rfl | rfl) | rfl) | rfl) | rfl) | rfl <;>
    exact absurd h.1 (by decide)

theorem digit_not_minus {c : Char} (h : isDigitCh c = true) :
    (c == '-') = false := by
  rw [isDigitCh, Bool.and_eq_true, decide_eq_true_eq, decide_eq_true_eq] at h
  rw [Bool.eq_false_iff]
  intro hm
  rw [beq_iff_eq] at hm
  subst hm
  exact absurd h.1 (by decide)

theorem digit_not_plus {c : Char} (h : isDigitCh c = true) :
    (c == '+') = false := by
  rw [isDigitCh, Bool.and_eq_true, decide_eq_true_eq, decide_eq_true_eq] at h
  rw [Bool.eq_false_iff]
  intro hm
  rw [beq_iff_eq] at hm
  subst hm
  exact absurd h.1 (by decide)

theorem jsParseInt_decimalRepr (n : Nat) :
    jsParseInt (decimalRepr n) = some (n : Int) := by
  rw [decimalRepr, jsParseInt]
  show (match (decimalReprAux (n + 1) n []).dropWhile isJsSpace with
    | [] => none
    | c :: rest =>
        if c == '-' then (parseDigitsVal rest).map (fun v => -(v : Int))
        else if c == '+' then (parseDigitsVal rest).map (fun v => (v : Int))
        else (parseDigitsVal (c :: rest)).map (fun v => (v : Int)))
    = some (n : Int)
  rw [decimalReprAux_eq (n + 1) n [] (by omega), List.append_nil]
  have hdig := decimalDigits_digits n
  obtain ⟨c, cs, hcons⟩ := List.exists_cons_of_ne_nil (decimalDigits_ne_nil n)
  rw [hcons]
  have hc : isDigitCh c = true := by
    apply hdig
    rw [hcons]
    exact List.mem_cons_self c cs
  rw [List.dropWhile_cons, digit_not_space hc]
  simp only [Bool.false_eq_true, if_false]
  rw [digit_not_minus hc, digit_not_plus hc]
  simp only [Bool.false_eq_true, if_false]
  rw [parseDigitsVal]
  have hall : List.takeWhile isDigitCh (c :: cs) = c :: cs := by
    rw [List.takeWhile_eq_self_iff]
    intro x hx
    apply hdig
    rw [hcons]
    exact hx
  simp only [hall]
  have : digitsVal (c :: cs) = n := by
    rw [← hcons]
    exact digitsVal_decimalDigits n
  simp [this]

/-! ## Claim C4: identifier resolution in `switch_project` / `close_project` -/

/-- Three open projects used as concrete instances for the project-switching
claims. -/
def demoProjects3 : List Project :=
  [⟨"alpha", "A", none⟩, ⟨"beta", "B", none⟩, ⟨"gamma", "C", none⟩]

/-- C4 counterexample.  Two refutations.  `"2x"` is an unknown UUID (no
open project has it), so per the claim `switch_project` should fail without
mutating; but `parseInt("2x", 10)` yields `2`, which is in range, so the
handler selects the second project and succeeds.  And `""` is likewise an
identifier matching no project's UUID, yet `close_project` given
`uuid = ""` takes the falsy branch of `if (uuid)` and closes the ACTIVE
project — a successful mutation where the claim demands an error. -/
theorem switch_project_numeral_hijack_cex :
    (∀ p ∈ demoProjects3, p.uuid ≠ "2x")
    ∧ switchExec demoProjects3 "2x"
        = ([ProjEffect.select "beta"],
           Except.ok "Switched to project: B (UUID: beta)")
    ∧ (switchExec demoProjects3 "2x").1 ≠ []
    ∧ (∀ p ∈ demoProjects3, p.uuid ≠ "")
    ∧ closeExec demoProjects3 (some ⟨"alpha", "A", none⟩) (some "") false
        = ([ProjEffect.close "alpha" false],
           Except.ok "Closed project: A (UUID: alpha)") :=
  ⟨by decide, rfl, by decide, by decide, rfl⟩

theorem find?_uuid_eq_none (ps : List Project) (s : String)
    (hs : ∀ p ∈ ps, p.uuid ≠ s) :
    ps.find? (fun p => p.uuid == s) = none := by
  rw [List.find?_eq_none]
  intro p hp hbeq
  exact hs p hp (by rwa [beq_iff_eq] at hbeq)

/-- C4 amended.  `switch_project` treats an identifier as an index exactly
when its `parseInt` value is an integer in `[1, length]` (so an identifier
with an in-range numeric prefix — e.g. `"2x"` — selects by that prefix even
if it is an unknown UUID); when the `parseInt` value is absent or out of
range AND no project has the identifier as its exact UUID, it fails with the
descriptive error and performs no mutation.  `close_project` resolves a
given truthy (non-empty) `uuid` only by exact UUID (it has no index
branch); an unknown non-empty UUID fails with the descriptive error and
performs no mutation, while an empty-string `uuid` is falsy in the source's
`if (uuid)` and closes the active project as if no `uuid` were given (see
the counterexample).  In both failure cases the empty effect trace shows
`select`/`close` is never called before a target is found. -/
theorem switch_close_unresolved_error (ps : List Project)
    (active : Option Project) (id u : String) (force : Bool)
    (hne : ps ≠ [])
    (hidx : ∀ k : Int, jsParseInt id = some k → ¬(1 ≤ k ∧ k ≤ (ps.length : Int)))
    (hid : ∀ p ∈ ps, p.uuid ≠ id)
    (hu : ∀ p ∈ ps, p.uuid ≠ u)
    (hru : u ≠ "") :
    switchExec ps id
      = ([], Except.error ("Project not found: " ++ id
          ++ ". Use 'list_open_projects' to see available projects."))
    ∧ closeExec ps active (some u) force
      = ([], Except.error ("Project not found: " ++ u)) := by
  have hempty : ps.isEmpty = false := by
    cases ps with
    | nil => exact absurd rfl hne
    | cons a l => rfl
  constructor
  · have htgt : switchTarget ps id = none := by
      rw [switchTarget]
      cases hk : jsParseInt id with
      | none => exact find?_uuid_eq_none ps id hid
      | some k =>
          have hnk := hidx k hk
          have hcond : (decide (1 ≤ k) && decide (k ≤ (ps.length : Int))) = false := by
            by_contra hcc
            simp only [Bool.not_eq_false, Bool.and_eq_true, decide_eq_true_eq] at hcc
            exact hnk hcc
          dsimp only
          rw [hcond]
          simp only [Bool.false_eq_true, if_false]
          exact find?_uuid_eq_none ps id hid
    rw [switchExec, hempty]
    simp only [Bool.false_eq_true, if_false]
    rw [htgt]
  · have htru : jsTruthy (some u) = true := by
      have hb : (u == "") = false := beq_eq_false_iff_ne.mpr hru
      simp [jsTruthy, hb]
    have hfind := find?_uuid_eq_none ps u hu
    rw [closeExec.eq_def, hempty]
    simp only [Bool.false_eq_true, if_false, htru, if_true, Option.getD_some, hfind]

/-- C4 witness: with three projects open, identifier `"99"` (an out-of-range
index, no matching UUID) makes `switch_project` fail with no mutation, and
the truthy identifier `"nope"` (unknown UUID) makes `close_project` fail
with no mutation. -/
theorem switch_close_unresolved_error_witness :
    demoProjects3 ≠ []
    ∧ (∀ p ∈ demoProjects3, p.uuid ≠ "99")
    ∧ (∀ p ∈ demoProjects3, p.uuid ≠ "nope")
    ∧ "nope" ≠ ""
    ∧ (switchExec demoProjects3 "99"
        = ([], Except.error ("Project not found: " ++ "99"
            ++ ". Use 'list_open_projects' to see available projects."))
      ∧ closeExec demoProjects3 none (some "nope") false
        = ([], Except.error ("Project not found: " ++ "nope"))) := by
  refine ⟨by decide, by decide, by decide, by decide,
    switch_close_unresolved_error demoProjects3 none "99" "nope" false
      (by decide) ?_ (by decide) (by decide) (by decide)⟩
  intro k hk
  rw [show jsParseInt "99" = some (99 : Int) from rfl] at hk
  injection hk with hk'
  subst hk'
  decide

/-! ## Claim C10: `list_open_projects` numbering agrees with `switch_project` -/

theorem listLinesFrom_get? :
    ∀ (ps : List Project) (i k : Nat) (activeUuid : Option String),
      (listLinesFrom i activeUuid ps).get? k
        = (ps.get? k).map (fun p => renderProjectLine (i + k) activeUuid p) := by
  intro ps
  induction ps with
  | nil => intro i k a; simp [listLinesFrom]
  | cons p ps ih =>
      intro i k a
      cases k with
      | zero => simp [listLinesFrom]
      | succ q =>
          simp only [listLinesFrom, List.get?_cons_succ]
          rw [ih (i + 1) q a, show i + 1 + q = i + (q + 1) from by omega]

/-- C10.  For every open-project list and every in-range 1-based index `n`,
`switch_project` given the decimal numeral of `n` resolves exactly the
project at 0-based position `n - 1`, which is exactly the project printed on
line `n` of `list_open_projects` — both tools enumerate `ModelProject.all`
in the same order. -/
theorem list_switch_index_agreement (ps : List Project)
    (activeUuid : Option String) (n : Nat) (h1 : 1 ≤ n) (h2 : n ≤ ps.length) :
    ∃ p, ps.get? (n - 1) = some p
      ∧ switchTarget ps (decimalRepr n) = some p
      ∧ (listLines activeUuid ps).get? (n - 1)
          = some (renderProjectLine (n - 1) activeUuid p) := by
  have hlt : n - 1 < ps.length := by omega
  refine ⟨ps.get ⟨n - 1, hlt⟩, List.get?_eq_get hlt, ?_, ?_⟩
  · rw [switchTarget, jsParseInt_decimalRepr n]
    have hcond : (decide ((1 : Int) ≤ (n : Int))
        && decide ((n : Int) ≤ (ps.length : Int))) = true := by
      simp only [Bool.and_eq_true, decide_eq_true_eq]
      exact ⟨by exact_mod_cast h1, by exact_mod_cast h2⟩
    dsimp only
    rw [hcond]
    simp only [if_true]
    rw [Int.toNat_natCast]
    exact List.get?_eq_get hlt
  · rw [listLines, listLinesFrom_get? ps 0 (n - 1) activeUuid,
      List.get?_eq_get hlt]
    simp

/-- C10 witness: with three projects open, numeral `"2"` and line 2 of the
listing denote the same project. -/
theorem list_switch_index_agreement_witness :
    1 ≤ 2 ∧ 2 ≤ demoProjects3.length
    ∧ ∃ p, demoProjects3.get? (2 - 1) = some p
        ∧ switchTarget demoProjects3 (decimalRepr 2) = some p
        ∧ (listLines (some "alpha") demoProjects3).get? (2 - 1)
            = some (renderProjectLine (2 - 1) (some "alpha") p) :=
  ⟨by decide, by decide,
    list_switch_index_agreement demoProjects3 (some "alpha") 2
      (by decide) (by decide)⟩


end BBMcp
